import Mathlib

/-!
# Verification of the Reliability-based CMA-ES learner (`pypuf`)

Shallow embedding of `pypuf/learner/evolution_strategies/becker.py`
(class `Reliability_based_CMA_ES`) over exact rational arithmetic.

Modelling conventions:
* numpy float arrays are modelled by functions `Fin n → ℚ` (vectors) and
  `Fin n → Fin n → ℚ` (matrices); floating-point rounding is abstracted to
  exact rational arithmetic.
* IEEE NaN, where its propagation is the point of a claim, is modelled by
  `Option ℚ` with `none` playing NaN (any operation with a NaN operand
  yields NaN).
* A Python exception (numpy `IndexError` / `LinAlgError`) is modelled by an
  `Option`-returning function evaluating to `none`.
* Irrational float quantities (`np.sqrt`, `np.exp`, LAPACK `eigh`) that the
  source obtains from numpy are passed in as explicit parameters or oracle
  functions, so every definition stays executable.
-/

namespace Becker

/-! ## Covariance-matrix update (`update_cm`, `becker.py` lines 138-141)

Source:
```
return (1 - c_1 - c_mu) * cov_matrix + c_1 * path_cm * path_cm.T + c_mu * cm_mu
```
`path_cm` is a 1-D numpy array of shape `(n,)`.  numpy semantics:
`path_cm.T` is a no-op on a 1-D array, `*` is elementwise, so
`path_cm * path_cm.T` is the 1-D vector of squares `path_cm**2`; adding a
shape-`(n,)` vector to a shape-`(n,n)` matrix broadcasts the vector across
rows, adding `path_cm[j]**2` to every entry of column `j`. -/

def update_cm (nn : ℕ) (cov_matrix : Fin nn → Fin nn → ℚ) (c_1 c_mu : ℚ)
    (path_cm : Fin nn → ℚ) (cm_mu : Fin nn → Fin nn → ℚ) : Fin nn → Fin nn → ℚ :=
  fun i j => (1 - c_1 - c_mu) * cov_matrix i j + c_1 * (path_cm j * path_cm j)
    + c_mu * cm_mu i j

/-- The covariance update as the specification words it: the `c_1` term is the
rank-one outer product `path_cm ⊗ path_cm` (an `(n,n)` matrix with entries
`path_cm i * path_cm j`).  Written from the spec, to be compared against
`update_cm`, which is written from the source. -/
def update_cm_outer (nn : ℕ) (cov_matrix : Fin nn → Fin nn → ℚ) (c_1 c_mu : ℚ)
    (path_cm : Fin nn → ℚ) (cm_mu : Fin nn → Fin nn → ℚ) : Fin nn → Fin nn → ℚ :=
  fun i j => (1 - c_1 - c_mu) * cov_matrix i j + c_1 * (path_cm i * path_cm j)
    + c_mu * cm_mu i j

/-- Constants as the constructor would set them for `n = 2` with
`priorities = [1]`: `c_1 = 2/n^2 = 1/2`, `mu_w = 1`, `c_mu = mu_w/n^2 = 1/4`. -/
def cexPathCm : Fin 2 → ℚ := ![1, 0]

/-- C1: the covariance update of the code is NOT the spec's
`(1-c_1-c_mu)*C + c_1*(path_cm ⊗ path_cm) + c_mu*cm_mu`.  At
`C = 0`, `cm_mu = 0`, `c_1 = 1/2`, `c_mu = 1/4`, `path_cm = (1,0)` the code
produces entry `(1,0) = c_1 * path_cm[0]^2 = 1/2` (the broadcast of the
elementwise square `path_cm * path_cm.T`), while the spec's rank-one outer
product puts `c_1 * path_cm[1] * path_cm[0] = 0` there. -/
theorem C1_update_cm_is_not_outer_product :
    update_cm 2 (fun _ _ => 0) (1/2) (1/4) cexPathCm (fun _ _ => 0) 1 0 = 1/2 ∧
    update_cm_outer 2 (fun _ _ => 0) (1/2) (1/4) cexPathCm (fun _ _ => 0) 1 0 = 0 := by
  constructor <;> simp [update_cm, update_cm_outer, cexPathCm]

/-- C2: the covariance update does not preserve symmetry.  With symmetric
inputs `C = 0`, `cm_mu = 0` (and `path_cm = (1,0)`, `c_1 = 1/2`,
`c_mu = 1/4` as produced by the constructor for `n = 2`,
`priorities = [1]`), the returned matrix has entry `(0,1) = 0` but entry
`(1,0) = 1/2`, so it differs from its own transpose. -/
theorem C2_update_cm_not_symmetric :
    update_cm 2 (fun _ _ => 0) (1/2) (1/4) cexPathCm (fun _ _ => 0) 0 1 = 0 ∧
    update_cm 2 (fun _ _ => 0) (1/2) (1/4) cexPathCm (fun _ _ => 0) 1 0 = 1/2 ∧
    ¬ (∀ i j, update_cm 2 (fun _ _ => 0) (1/2) (1/4) cexPathCm (fun _ _ => 0) i j
          = update_cm 2 (fun _ _ => 0) (1/2) (1/4) cexPathCm (fun _ _ => 0) j i) := by
  refine ⟨by simp [update_cm, cexPathCm], by simp [update_cm, cexPathCm], fun h => ?_⟩
  have h01 := h 0 1
  simp [update_cm, cexPathCm] at h01

/-! ## Constructor (`Reliability_based_CMA_ES.__init__`, lines 13-43)

Auxiliary constants (lines 35-40) and the three `assert` statements
(lines 41-43):
```
self.mu_w = 1 / np.sum(np.square(priorities))
self.c_mu = self.mu_w / self.n**2
self.c_1  = 2 / self.n**2
assert len(priorities) == parent_size
assert int(np.ndarray.sum(priorities)) == 1
assert (self.c_1 + self.c_mu <= 1)
```
`self.n` is `instance.n + 1`, written `nn` here.  Construction succeeds iff
all three asserted conditions hold; `pop_size` is never examined. -/

def mu_w (priorities : List ℚ) : ℚ := 1 / (priorities.map (fun p => p ^ 2)).sum

def c_mu (priorities : List ℚ) (nn : ℕ) : ℚ := mu_w priorities / (nn : ℚ) ^ 2

def c_1 (nn : ℕ) : ℚ := 2 / (nn : ℚ) ^ 2

/-- Python `int()` applied to a float: truncation toward zero. -/
def pyint (q : ℚ) : ℤ := if 0 ≤ q then ⌊q⌋ else -⌊-q⌋

/-- The conjunction of the three constructor `assert`s: construction
succeeds iff this evaluates to `true`. -/
def initOK (parent_size : ℕ) (priorities : List ℚ) (nn : ℕ) : Bool :=
  (priorities.length == parent_size) && (pyint priorities.sum == 1)
    && decide (c_1 nn + c_mu priorities nn ≤ 1)

/-- The claim's notion of a valid configuration: correct `priorities`
length, priorities summing to exactly 1, `c_1 + c_mu ≤ 1`, positive sizes,
and `parent_size ≤ pop_size`. -/
def claimValidConfig (pop_size parent_size : ℕ) (priorities : List ℚ) (nn : ℕ) : Prop :=
  priorities.length = parent_size ∧ priorities.sum = 1 ∧
    c_1 nn + c_mu priorities nn ≤ 1 ∧
    0 < pop_size ∧ 0 < parent_size ∧ parent_size ≤ pop_size

theorem pyint_eq_one_iff (q : ℚ) : pyint q = 1 ↔ 1 ≤ q ∧ q < 2 := by
  unfold pyint
  split
  · rw [show (1 : ℤ) = ((1 : ℤ)) from rfl, Int.floor_eq_iff]
    norm_num
  · rename_i hq
    push_neg at hq
    constructor
    · intro h
      exfalso
      have h1 : ⌊-q⌋ = -1 := by omega
      have h2 := Int.lt_floor_add_one (-q)
      rw [h1] at h2
      push_cast at h2
      linarith
    · rintro ⟨h1, _⟩
      linarith

theorem initOK_iff (parent_size : ℕ) (priorities : List ℚ) (nn : ℕ) :
    initOK parent_size priorities nn = true ↔
      (priorities.length = parent_size ∧ (1 ≤ priorities.sum ∧ priorities.sum < 2)
        ∧ c_1 nn + c_mu priorities nn ≤ 1) := by
  simp only [initOK, Bool.and_eq_true, beq_iff_eq, decide_eq_true_eq, Nat.cast_inj,
    pyint_eq_one_iff]
  tauto

/-- C5 counterexample: the configuration `pop_size = 1`, `parent_size = 2`,
`priorities = [1/2, 1/2]`, `n = 4` is invalid in the claim's sense
(`parent_size > pop_size`), yet every constructor assert passes, so
construction succeeds. -/
theorem C5_invalid_config_constructs :
    ¬ claimValidConfig 1 2 [(1:ℚ)/2, 1/2] 4 ∧ initOK 2 [(1:ℚ)/2, 1/2] 4 = true := by
  constructor
  · intro h
    exact absurd h.2.2.2.2.2 (by decide)
  · rw [initOK_iff]
    refine ⟨rfl, ⟨by norm_num, by norm_num⟩, ?_⟩
    norm_num [c_1, c_mu, mu_w]

/-- C5 amended: construction succeeds iff the three asserted conditions
hold — `priorities` has length `parent_size`, the truncated-to-int sum of
`priorities` equals 1 (i.e. the sum lies in `[1, 2)`), and
`c_1 + c_mu ≤ 1`.  Positivity of `pop_size`/`parent_size` and
`parent_size ≤ pop_size` are never checked (`pop_size` does not occur). -/
theorem C5_construction_succeeds_iff (parent_size : ℕ) (priorities : List ℚ) (nn : ℕ) :
    initOK parent_size priorities nn = true ↔
      (priorities.length = parent_size ∧ (1 ≤ priorities.sum ∧ priorities.sum < 2)
        ∧ c_1 nn + c_mu priorities nn ≤ 1) :=
  initOK_iff parent_size priorities nn

/-- C10 counterexample: `priorities = [1/3, 1/3, 1/3]` of length
`parent_size = 3` sums to `1 ∈ [1, 2)`, yet with `n = 2` construction is
rejected, because `c_1 + c_mu = 1/2 + 3/4 > 1` fails the third assert. -/
theorem C10_sum_in_range_yet_rejected :
    (1 ≤ ([(1:ℚ)/3, 1/3, 1/3].sum) ∧ ([(1:ℚ)/3, 1/3, 1/3].sum) < 2) ∧
      initOK 3 [(1:ℚ)/3, 1/3, 1/3] 2 = false := by
  constructor
  · constructor <;> norm_num
  · rw [← Bool.not_eq_true, initOK_iff]
    rintro ⟨-, -, hc⟩
    rw [show c_1 2 + c_mu [(1:ℚ)/3, 1/3, 1/3] 2 = 5/4 by norm_num [c_1, c_mu, mu_w]] at hc
    norm_num at hc

/-- C10 amended: provided the other two asserts pass (`priorities` has
length `parent_size` and `c_1 + c_mu ≤ 1`), the priorities-sum check
truncates the sum to an integer before comparing with 1: construction
accepts every vector whose sum lies in `[1, 2)` and rejects every vector
whose sum lies in `[0, 1)`. -/
theorem C10_truncated_sum_check (parent_size : ℕ) (priorities : List ℚ) (nn : ℕ)
    (hlen : priorities.length = parent_size)
    (hc : c_1 nn + c_mu priorities nn ≤ 1) :
    (1 ≤ priorities.sum → priorities.sum < 2 →
      initOK parent_size priorities nn = true) ∧
    (0 ≤ priorities.sum → priorities.sum < 1 →
      initOK parent_size priorities nn = false) := by
  constructor
  · intro h1 h2
    exact (initOK_iff parent_size priorities nn).2 ⟨hlen, ⟨h1, h2⟩, hc⟩
  · intro h0 h1
    rw [← Bool.not_eq_true, initOK_iff]
    rintro ⟨-, ⟨hs, -⟩, -⟩
    linarith

/-- Witness for C10: `[19/10]` (sum `1.9`) is accepted, `[9/10]` (sum `0.9`)
is rejected. -/
theorem C10_truncated_sum_check_witness :
    initOK 1 [(19:ℚ)/10] 10 = true ∧ initOK 1 [(9:ℚ)/10] 10 = false :=
  ⟨(C10_truncated_sum_check 1 [(19:ℚ)/10] 10 (by rfl)
        (by norm_num [c_1, c_mu, mu_w])).1
      (by norm_num) (by norm_num),
   (C10_truncated_sum_check 1 [(9:ℚ)/10] 10 (by rfl)
        (by norm_num [c_1, c_mu, mu_w])).2
      (by norm_num) (by norm_num)⟩

/-! ## Deduplication (`is_different_LTF` lines 56-68, `is_correlated` lines 226-234)

`is_different_LTF` allocates `responses = np.empty((num_of_LTFs,
challenge_num))`, writes the new chain's responses into row `0` and the
`num_of_LTFs` previously accepted chains' responses into rows
`1 .. num_of_LTFs`; a numpy row assignment `responses[i, :] = ...` with
`i >= num_of_LTFs` raises `IndexError`, modelled by a `none`-returning
checked write.  Response rows (`LTFArray.eval` lives outside this
repository) enter as parameters.  Modelled from the spec: evaluator outputs
are signed values, one per challenge. -/

def setRow (m : ℕ) (buf : List (Fin m → ℚ)) (i : ℕ) (row : Fin m → ℚ) :
    Option (List (Fin m → ℚ)) :=
  if i < buf.length then some (buf.set i row) else none

/-- `is_correlated` (lines 226-234): compares row 0 with every later row;
`differences = np.sum(np.abs(row0 - rowi)) / 2`, and the pair counts as
correlated when `differences < 0.25 * challenge_num` or
`differences > 0.75 * challenge_num`. -/
def is_correlated (m : ℕ) (responses : List (Fin m → ℚ)) : Bool :=
  match responses with
  | [] => false
  | r0 :: rest => rest.any fun ri =>
      decide ((∑ j, |r0 j - ri j|) / 2 < (1/4 : ℚ) * m) ||
      decide ((3/4 : ℚ) * m < (∑ j, |r0 j - ri j|) / 2)

/-- `is_different_LTF` (lines 56-68).  `newEval` is the candidate chain's
response row, `prevEvals i` the response row of the `i`-th previously
accepted chain; `none` models an uncaught `IndexError`. -/
def is_different_LTF (m num_of_LTFs : ℕ) (newEval : Fin m → ℚ)
    (prevEvals : ℕ → Fin m → ℚ) : Option Bool :=
  if num_of_LTFs = 0 then some true
  else
    ((setRow m (List.replicate num_of_LTFs (fun _ => 0)) 0 newEval).bind fun buf1 =>
      (List.range num_of_LTFs).foldlM
        (fun b i => setRow m b (i + 1) (prevEvals i)) buf1).map
      fun responses => ! is_correlated m responses

theorem setRow_length {m : ℕ} {buf buf' : List (Fin m → ℚ)} {i : ℕ}
    {row : Fin m → ℚ} (h : setRow m buf i row = some buf') :
    buf'.length = buf.length := by
  unfold setRow at h
  split at h
  · cases h
    exact List.length_set ..
  · cases h

theorem foldlM_setRow_none {m : ℕ} (rows : ℕ → Fin m → ℚ) :
    ∀ (l : List ℕ) (buf : List (Fin m → ℚ)),
      (∃ i ∈ l, buf.length ≤ i + 1) →
      l.foldlM (fun b i => setRow m b (i + 1) (rows i)) buf = none := by
  intro l
  induction l with
  | nil => rintro buf ⟨i, hi, -⟩; exact absurd hi (List.not_mem_nil i)
  | cons a t ih =>
      rintro buf ⟨i, hi, hlen⟩
      rw [List.foldlM_cons]
      by_cases ha : buf.length ≤ a + 1
      · have : setRow m buf (a + 1) (rows a) = none := by
          unfold setRow
          rw [if_neg (by omega)]
        rw [this]
        rfl
      · obtain ⟨buf', hbuf'⟩ : ∃ b, setRow m buf (a + 1) (rows a) = some b := by
          unfold setRow
          rw [if_pos (by omega)]
          exact ⟨_, rfl⟩
        rw [hbuf']
        have hi' : i ∈ t := by
          rcases List.mem_cons.1 hi with h | h
          · omega
          · exact h
        exact ih buf' ⟨i, hi', by rw [setRow_length hbuf']; exact hlen⟩

/-- C4: whenever at least one chain has already been accepted, the final
row write of `is_different_LTF` is out of bounds (row `num_of_LTFs` of a
buffer with `num_of_LTFs` rows), so the error branch is reached on every
such call: the function never completes a comparison. -/
theorem C4_responses_write_out_of_bounds (m num_of_LTFs : ℕ)
    (newEval : Fin m → ℚ) (prevEvals : ℕ → Fin m → ℚ)
    (h : 1 ≤ num_of_LTFs) :
    is_different_LTF m num_of_LTFs newEval prevEvals = none := by
  unfold is_different_LTF
  rw [if_neg (by omega)]
  have h0 : setRow m (List.replicate num_of_LTFs (fun _ => (0 : ℚ)))
      0 newEval = some ((List.replicate num_of_LTFs (fun _ => (0 : ℚ))).set 0 newEval) := by
    unfold setRow
    rw [if_pos (by simpa using h)]
  rw [h0, Option.some_bind, foldlM_setRow_none]
  · rfl
  · refine ⟨num_of_LTFs - 1, List.mem_range.2 (by omega), ?_⟩
    simp only [List.length_set, List.length_replicate]
    omega

theorem C4_responses_write_out_of_bounds_witness :
    is_different_LTF 1 2 ![5] (fun _ => ![7]) = none :=
  C4_responses_write_out_of_bounds 1 2 ![5] (fun _ => ![7]) (by omega)

/-- C3: with one accepted chain and a candidate whose responses are
identical to it (a duplicate, which the claim says must be rejected with
`False`), `is_different_LTF` instead hits the out-of-bounds row write and
raises — the deduplication logic never runs. -/
theorem C3_duplicate_crashes_instead_of_rejecting :
    is_different_LTF 2 1 ![1, 1] (fun _ => ![1, 1]) = none := by
  rfl

/-! ## Fitness (`get_correlations`, lines 198-207)

```
for i in range(pop_size):
    if np.any(reliabilities[i, :]):
        correlations[i] = np.corrcoef(reliabilities[i, :], measured_rels)[0, 1]
```
`np.corrcoef(x, y)[0, 1]` is the Pearson coefficient
`r = cov(x,y) / (σ_x · σ_y)`; it is NaN exactly when one of the two sample
variances vanishes.  Since `r`'s denominator is an irrational square root,
a defined value is represented by the pair `some (num, den2)` meaning
`r = num / √den2` with `den2 > 0` (the exact float `0.0` that
`np.zeros` leaves in place is `some (0, 1)`), and NaN by `none`.
Normalization of covariance/variance cancels in `r`, so unnormalized sums
are used. -/

def meanv (m : ℕ) (x : Fin m → ℚ) : ℚ := (∑ j, x j) / m

def covv (m : ℕ) (x y : Fin m → ℚ) : ℚ :=
  ∑ j, (x j - meanv m x) * (y j - meanv m y)

def varv (m : ℕ) (x : Fin m → ℚ) : ℚ := ∑ j, (x j - meanv m x) ^ 2

/-- `np.corrcoef(x, y)[0, 1]` in the pair representation. -/
def corrcoef (m : ℕ) (x y : Fin m → ℚ) : Option (ℚ × ℚ) :=
  if varv m x = 0 ∨ varv m y = 0 then none
  else some (covv m x y, varv m x * varv m y)

def get_correlations (p m : ℕ) (reliabilities : Fin p → Fin m → ℚ)
    (measured_rels : Fin m → ℚ) : Fin p → Option (ℚ × ℚ) :=
  fun i =>
    if ∀ j, reliabilities i j = 0 then some (0, 1)
    else corrcoef m (reliabilities i) measured_rels

/-- "The fitness is exactly 0": in the pair representation, a defined value
whose numerator is 0. -/
def corrIsZero (c : Option (ℚ × ℚ)) : Prop := ∃ d, c = some (0, d) ∧ 0 < d

/-- "The fitness lies in `[-1, 1]`": a defined value `num/√den2` with
`den2 > 0` and `(num/√den2)^2 ≤ 1`, i.e. `num^2 ≤ den2`. -/
def corrInRange (c : Option (ℚ × ℚ)) : Prop :=
  ∃ nu d, c = some (nu, d) ∧ 0 < d ∧ nu ^ 2 ≤ d

theorem varv_nonneg (m : ℕ) (x : Fin m → ℚ) : 0 ≤ varv m x :=
  Finset.sum_nonneg fun _ _ => sq_nonneg _

theorem varv_eq_zero_iff (m : ℕ) (x : Fin m → ℚ) :
    varv m x = 0 ↔ ∀ j1 j2, x j1 = x j2 := by
  constructor
  · intro h j1 j2
    have hz := (Finset.sum_eq_zero_iff_of_nonneg
      (fun j _ => sq_nonneg (x j - meanv m x))).1 h
    have h1 := hz j1 (Finset.mem_univ j1)
    have h2 := hz j2 (Finset.mem_univ j2)
    have e1 : x j1 = meanv m x := by
      have := pow_eq_zero_iff (n := 2) (by omega) |>.1 h1
      linarith [sub_eq_zero.1 this]
    have e2 : x j2 = meanv m x := by
      have := pow_eq_zero_iff (n := 2) (by omega) |>.1 h2
      linarith [sub_eq_zero.1 this]
    rw [e1, e2]
  · intro hconst
    rcases Nat.eq_zero_or_pos m with hm | hm
    · subst hm
      simp [varv]
    · have j0 : Fin m := ⟨0, hm⟩
      have hmean : meanv m x = x j0 := by
        unfold meanv
        rw [Finset.sum_congr rfl (fun j _ => hconst j j0), Finset.sum_const,
          Finset.card_univ, Fintype.card_fin, nsmul_eq_mul]
        field_simp
      unfold varv
      refine Finset.sum_eq_zero fun j _ => ?_
      rw [hmean, hconst j j0]
      ring

theorem covv_sq_le_varv_mul_varv (m : ℕ) (x y : Fin m → ℚ) :
    (covv m x y) ^ 2 ≤ varv m x * varv m y :=
  Finset.sum_mul_sq_le_sq_mul_sq Finset.univ
    (fun j => x j - meanv m x) (fun j => y j - meanv m y)

/-- C6 counterexample.  Left conjunct: the individual whose predicted
signature is all-ones (constant, every challenge predicted unreliable) gets
NaN — `np.corrcoef` of a constant vector — not the exact 0 the claim
demands.  Right conjunct: an individual with a non-constant predicted
signature but a constant measured signature also gets NaN, so its fitness
does not lie in `[-1, 1]` either. -/
theorem C6_constant_signature_fitness_not_zero :
    ¬ corrIsZero (get_correlations 1 2 ![![1, 1]] ![1, 0] 0) ∧
    ¬ corrInRange (get_correlations 1 2 ![![0, 1]] ![1, 1] 0) := by
  have h1 : get_correlations 1 2 ![![1, 1]] ![1, 0] 0 = none := by
    unfold get_correlations
    rw [if_neg (by intro h; have := h 0; simp at this)]
    unfold corrcoef
    rw [if_pos]
    left
    norm_num [varv, meanv, Fin.sum_univ_two]
  have h2 : get_correlations 1 2 ![![0, 1]] ![1, 1] 0 = none := by
    unfold get_correlations
    rw [if_neg (by intro h; have := h 1; simp at this)]
    unfold corrcoef
    rw [if_pos]
    right
    norm_num [varv, meanv, Fin.sum_univ_two]
  constructor
  · rw [h1]
    rintro ⟨d, hd, -⟩
    cases hd
  · rw [h2]
    rintro ⟨nu, d, hd, -⟩
    cases hd

/-- C6 amended: (1) an all-zero predicted signature gets the exact fitness
0; (2) a signature is constant iff its variance vanishes; (3) when both the
predicted and the measured signatures are non-constant, the fitness is the
Pearson coefficient `cov/√(var_x·var_y)` and lies in `[-1, 1]`
(`cov² ≤ var_x·var_y`, Cauchy-Schwarz); (4) when the predicted signature is
constant but not all-zero (e.g. all ones), or the measured signature is
constant, the fitness is NaN, not 0. -/
theorem C6_fitness_characterization (p m : ℕ) (reliabilities : Fin p → Fin m → ℚ)
    (measured_rels : Fin m → ℚ) (i : Fin p) :
    ((∀ j, reliabilities i j = 0) →
      get_correlations p m reliabilities measured_rels i = some (0, 1)) ∧
    (varv m (reliabilities i) = 0 ↔ ∀ j1 j2, reliabilities i j1 = reliabilities i j2) ∧
    (varv m (reliabilities i) ≠ 0 → varv m measured_rels ≠ 0 →
      get_correlations p m reliabilities measured_rels i
          = some (covv m (reliabilities i) measured_rels,
              varv m (reliabilities i) * varv m measured_rels) ∧
        corrInRange (get_correlations p m reliabilities measured_rels i)) ∧
    ((¬ ∀ j, reliabilities i j = 0) →
      (varv m (reliabilities i) = 0 ∨ varv m measured_rels = 0) →
      get_correlations p m reliabilities measured_rels i = none) := by
  refine ⟨fun h => ?_, varv_eq_zero_iff m _, fun hx hy => ?_, fun hany hdeg => ?_⟩
  · unfold get_correlations
    rw [if_pos h]
  · have hnz : ¬ ∀ j, reliabilities i j = 0 := by
      intro hall
      exact hx ((varv_eq_zero_iff m _).2 fun j1 j2 => by rw [hall j1, hall j2])
    have heq : get_correlations p m reliabilities measured_rels i
        = some (covv m (reliabilities i) measured_rels,
            varv m (reliabilities i) * varv m measured_rels) := by
      unfold get_correlations corrcoef
      rw [if_neg hnz, if_neg (not_or.2 ⟨hx, hy⟩)]
    refine ⟨heq, ?_⟩
    have hpos : 0 < varv m (reliabilities i) * varv m measured_rels :=
      mul_pos (lt_of_le_of_ne (varv_nonneg m _) (Ne.symm hx))
        (lt_of_le_of_ne (varv_nonneg m _) (Ne.symm hy))
    exact ⟨_, _, heq, hpos, covv_sq_le_varv_mul_varv m _ _⟩
  · unfold get_correlations corrcoef
    rw [if_neg hany, if_pos hdeg]

/-- Witness for C6 at `reliabilities = [[1, 0]]`, `measured_rels = [1, 0]`:
both signatures non-constant, and the fitness is a defined Pearson value
inside `[-1, 1]`. -/
theorem C6_fitness_characterization_witness :
    get_correlations 1 2 ![![1, 0]] ![1, 0] 0
        = some (covv 2 (![![(1:ℚ), 0]] 0) ![1, 0],
            varv 2 (![![(1:ℚ), 0]] 0) * varv 2 ![1, 0]) ∧
      corrInRange (get_correlations 1 2 ![![1, 0]] ![1, 0] 0) :=
  (C6_fitness_characterization 1 2 ![![1, 0]] ![1, 0] 0).2.2.1
    (by norm_num [varv, meanv, Fin.sum_univ_two, Matrix.cons_val_zero,
      Matrix.cons_val_one, Matrix.head_cons])
    (by norm_num [varv, meanv, Fin.sum_univ_two, Matrix.cons_val_zero,
      Matrix.cons_val_one, Matrix.head_cons])

/-! ## Distribution-state update (`learn_LTF` lines 97-107 and the
static update methods, lines 112-147)

Irrational float quantities are passed in explicitly:
* `sqrtTerm` stands for `np.sqrt(1 - (1-c_c)**2) * np.sqrt(mu_w)` and is
  pinned by the hypothesis `sqrtTerm^2 = (1 - (1-c_c)^2) * mu_w`,
  `0 ≤ sqrtTerm`;
* the guard `np.linalg.norm(path_ss) < 1.5 * np.sqrt(n)` of
  `cumulation_for_cm` compares two non-negative reals, so it is embedded in
  the equivalent squared form `normSq path_ss < (3/2)^2 * n`;
* `ssUpdate` is `cumulation_for_ss` (line 136, float-valued via
  `modify_eigen_decomposition`) and `ssFactor` the `np.exp` factor of
  `update_ss` (line 146); both enter as oracle parameters — only their
  position in the update sequence matters here. -/

def normSq (nn : ℕ) (v : Fin nn → ℚ) : ℚ := ∑ i, v i ^ 2

/-- `update_mean` (lines 119-122): `mean + step_size * parent`. -/
def update_mean (nn : ℕ) (mean : Fin nn → ℚ) (step_size : ℚ)
    (parent : Fin nn → ℚ) : Fin nn → ℚ :=
  fun i => mean i + step_size * parent i

/-- `cumulation_for_cm` (lines 124-130): decay `path_cm` by `(1 - c_c)`;
add the direction term only under the `path_ss`-norm guard. -/
def cumulation_for_cm (nn : ℕ) (path_cm : Fin nn → ℚ) (c_c : ℚ)
    (path_ss : Fin nn → ℚ) (sqrtTerm : ℚ) (parent : Fin nn → ℚ) : Fin nn → ℚ :=
  if normSq nn path_ss < (3/2 : ℚ) ^ 2 * nn then
    fun i => path_cm i * (1 - c_c) + sqrtTerm * parent i
  else
    fun i => path_cm i * (1 - c_c)

/-- `update_ss` (lines 143-147): multiplicative step-size update; `factor`
is the oracle for the `np.exp(...)` value. -/
def update_ss (step_size factor : ℚ) : ℚ := step_size * factor

structure DistState (nn : ℕ) where
  mean : Fin nn → ℚ
  step_size : ℚ
  cov_matrix : Fin nn → Fin nn → ℚ
  path_cm : Fin nn → ℚ
  path_ss : Fin nn → ℚ

/-- One generation's state update, exactly in the source order of
`learn_LTF` lines 97-107: mean (97), `path_cm` (99, reading the
still-unreplaced `path_ss`), `path_ss` (102, reading the still-unreplaced
`cov_matrix`), `cov_matrix` (104, reading the new `path_cm`), `step_size`
(106, reading the new `path_ss`). -/
def generationStep (nn : ℕ) (c_c c1 cmu sqrtTerm : ℚ)
    (ssUpdate : (Fin nn → ℚ) → (Fin nn → Fin nn → ℚ) → (Fin nn → ℚ) → Fin nn → ℚ)
    (ssFactor : (Fin nn → ℚ) → ℚ)
    (s : DistState nn) (parent : Fin nn → ℚ) (cm_mu : Fin nn → Fin nn → ℚ) :
    DistState nn :=
  let mean' := update_mean nn s.mean s.step_size parent
  let path_cm' := cumulation_for_cm nn s.path_cm c_c s.path_ss sqrtTerm parent
  let path_ss' := ssUpdate s.path_ss s.cov_matrix parent
  let cov' := update_cm nn s.cov_matrix c1 cmu path_cm' cm_mu
  let step' := update_ss s.step_size (ssFactor path_ss')
  ⟨mean', step', cov', path_cm', path_ss'⟩

/-- C8: in every generation's update, the new `path_cm` is the old one
decayed by `(1 - c_c)`, plus the direction term
`sqrt(1-(1-c_c)^2) * sqrt(mu_w) * parent` exactly when the norm of the
**pre-update** `path_ss` (the one the same generation is about to replace)
is strictly below `1.5 * sqrt(n)`; otherwise only the decayed term. -/
theorem C8_path_cm_decay_and_guard (nn : ℕ) (c_c c1 cmu sqrtTerm muw : ℚ)
    (ssUpdate : (Fin nn → ℚ) → (Fin nn → Fin nn → ℚ) → (Fin nn → ℚ) → Fin nn → ℚ)
    (ssFactor : (Fin nn → ℚ) → ℚ)
    (s : DistState nn) (parent : Fin nn → ℚ) (cm_mu : Fin nn → Fin nn → ℚ)
    (_hsq : sqrtTerm ^ 2 = (1 - (1 - c_c) ^ 2) * muw) (_hpos : 0 ≤ sqrtTerm) :
    (generationStep nn c_c c1 cmu sqrtTerm ssUpdate ssFactor s parent cm_mu).path_cm
      = fun i => (1 - c_c) * s.path_cm i +
          (if normSq nn s.path_ss < (3/2 : ℚ) ^ 2 * nn then sqrtTerm * parent i
           else 0) := by
  show cumulation_for_cm nn s.path_cm c_c s.path_ss sqrtTerm parent = _
  unfold cumulation_for_cm
  split <;> (funext i; ring)

/-- Witness for C8 with `n = 1`, `c_c = 1`, `mu_w = 4`, so
`sqrt(1-(1-c_c)^2)*sqrt(mu_w) = 2` exactly; the pre-update `path_ss = (0)`
passes the guard, so the direction term `2 * parent` is injected. -/
theorem C8_path_cm_decay_and_guard_witness :
    (generationStep 1 1 0 0 2 (fun p _ _ => p) (fun _ => 1)
        ⟨![0], 1, fun _ _ => 1, ![3], ![0]⟩ ![5] (fun _ _ => 0)).path_cm
      = fun i => (1 - 1) * (![(3:ℚ)] i) +
          (if normSq 1 ![(0:ℚ)] < (3/2 : ℚ) ^ 2 * (1:ℕ) then 2 * ![(5:ℚ)] i
           else 0) :=
  C8_path_cm_decay_and_guard 1 1 0 0 2 4 (fun p _ _ => p) (fun _ => 1)
    ⟨![0], 1, fun _ _ => 1, ![3], ![0]⟩ ![5] (fun _ _ => 0)
    (by norm_num) (by norm_num)

/-! ## Polarity fix (`set_pole_of_LTFs`, lines 211-224)

```
challenge_num = 10
responses[0, :] = instance.eval(cs1)
responses[1, :] = xor_LTFArray.eval(cs2)
difference = np.sum(np.abs(responses[0, :] - responses[1, :]))
if difference > challenge_num:
    different_LTFs[0, :] *= -1
```
The two response rows come from evaluators outside this repository and
enter as parameters.  Modelled from the spec: `instance.eval` and the
identity-transform XOR combination produce signed outputs in `{-1, 1}`. -/

def set_pole_of_LTFs (k nn : ℕ) (different_LTFs : Fin k → Fin nn → ℚ)
    (instResp combResp : Fin 10 → ℚ) : Fin k → Fin nn → ℚ :=
  if (10 : ℚ) < ∑ j, |instResp j - combResp j| then
    fun r c => if (r : ℕ) = 0 then - different_LTFs r c else different_LTFs r c
  else different_LTFs

theorem abs_diff_sum_of_sign (instResp combResp : Fin 10 → ℚ)
    (h1 : ∀ j, instResp j = 1 ∨ instResp j = -1)
    (h2 : ∀ j, combResp j = 1 ∨ combResp j = -1) :
    (∑ j, |instResp j - combResp j|)
      = 2 * ((Finset.univ.filter fun j => instResp j ≠ combResp j).card : ℚ) := by
  have hterm : ∀ j, |instResp j - combResp j|
      = if instResp j = combResp j then 0 else 2 := by
    intro j
    rcases h1 j with ha | ha <;> rcases h2 j with hb | hb <;>
      rw [ha, hb] <;> norm_num
  rw [Finset.sum_congr rfl fun j _ => hterm j, Finset.sum_ite, Finset.sum_const,
    Finset.sum_const]
  simp [mul_comm]

/-- C9: the polarity fix negates exactly the first chain's weight vector,
and does so iff the number of challenges (out of the fixed batch of 10) on
which the target instance and the identity-transform XOR combination
disagree exceeds half the batch (`> 5`); every other chain is returned
unchanged. -/
theorem C9_polarity_negates_first_iff_majority_disagreement
    (k nn : ℕ) (chains : Fin k → Fin nn → ℚ) (instResp combResp : Fin 10 → ℚ)
    (h1 : ∀ j, instResp j = 1 ∨ instResp j = -1)
    (h2 : ∀ j, combResp j = 1 ∨ combResp j = -1) :
    ∀ r c, set_pole_of_LTFs k nn chains instResp combResp r c
      = if (r : ℕ) = 0 ∧
            5 < (Finset.univ.filter fun j => instResp j ≠ combResp j).card
        then - chains r c else chains r c := by
  intro r c
  have hd := abs_diff_sum_of_sign instResp combResp h1 h2
  set d := (Finset.univ.filter fun j => instResp j ≠ combResp j).card with hdef
  have hguard : ((10 : ℚ) < ∑ j, |instResp j - combResp j|) ↔ 5 < d := by
    rw [hd]
    constructor
    · intro h
      have : (5 : ℚ) < (d : ℚ) := by linarith
      exact_mod_cast this
    · intro h
      have : (5 : ℚ) < (d : ℚ) := by exact_mod_cast h
      linarith
  unfold set_pole_of_LTFs
  split
  · rename_i hg
    have h5 : 5 < d := hguard.1 hg
    show (if (r : ℕ) = 0 then - chains r c else chains r c) = _
    by_cases hr : (r : ℕ) = 0
    · rw [if_pos hr, if_pos ⟨hr, h5⟩]
    · rw [if_neg hr, if_neg (by tauto)]
  · rename_i hg
    have h5 : ¬ 5 < d := fun h => hg (hguard.2 h)
    rw [if_neg (by tauto)]

/-- Witness for C9: all 10 challenges disagree (`instResp ≡ 1`,
`combResp ≡ -1`), so the first (and only) chain's weight `3` is negated. -/
theorem C9_polarity_witness :
    set_pole_of_LTFs 1 1 ![![3]] (fun _ => 1) (fun _ => -1) 0 0 = -3 := by
  have h := C9_polarity_negates_first_iff_majority_disagreement 1 1 ![![3]]
    (fun _ => 1) (fun _ => -1) (fun _ => Or.inl rfl) (fun _ => Or.inr rfl) 0 0
  rw [h, if_pos ⟨rfl, by decide⟩]
  simp

/-! ## Step-size path and eigendecomposition
(`cumulation_for_ss` lines 132-136, `modify_eigen_decomposition` lines 260-267)

```
eigen_values, eigen_vectors = np.linalg.eigh(matrix)
diagonal = np.sqrt((np.diag(eigen_values)))
diagonal_inverse = np.linalg.inv(diagonal)
return eigen_vectors @ diagonal_inverse @ eigen_vectors.T
```
To witness what the code does on a covariance matrix that is not positive
definite, IEEE NaN is modelled explicitly: a float is `Fl := Option ℚ`
with `none` for NaN; `np.sqrt` of a negative argument is NaN, and NaN
propagates through `+`, `*` and matrix products.  `np.linalg.eigh` is
external LAPACK, so its output `(eigen_values, eigen_vectors)` enters as
parameters; `sq` is the oracle for float square roots of non-negative
arguments.  `np.linalg.inv` of the diagonal matrix raises `LinAlgError`
(outer `none`) only on an exactly zero pivot; a NaN pivot raises nothing
and yields NaN entries. -/

abbrev Fl := Option ℚ

def fadd (a b : Fl) : Fl := a.bind fun x => b.map fun y => x + y

def fmul (a b : Fl) : Fl := a.bind fun x => b.map fun y => x * y

def fsqrt (sq : ℚ → ℚ) (a : Fl) : Fl :=
  a.bind fun x => if x < 0 then none else some (sq x)

def fsum (nn : ℕ) (f : Fin nn → Fl) : Fl := (List.ofFn f).foldr fadd (some 0)

def fmatmul (nn : ℕ) (A B : Fin nn → Fin nn → Fl) : Fin nn → Fin nn → Fl :=
  fun i k => fsum nn fun j => fmul (A i j) (B j k)

def fmatvec (nn : ℕ) (A : Fin nn → Fin nn → Fl) (v : Fin nn → Fl) : Fin nn → Fl :=
  fun i => fsum nn fun j => fmul (A i j) (v j)

/-- `np.sqrt(np.diag(eigen_values))`: square roots on the diagonal
(NaN for negative eigenvalues), exact zeros off the diagonal. -/
def diagSqrt (nn : ℕ) (sq : ℚ → ℚ) (ev : Fin nn → ℚ) : Fin nn → Fin nn → Fl :=
  fun i j => if i = j then fsqrt sq (some (ev i)) else some 0

/-- `np.linalg.inv` restricted to the diagonal matrices it receives here:
`none` (a raised `LinAlgError`) on an exact zero pivot, otherwise the
reciprocal diagonal with NaN pivots staying NaN. -/
def invDiag (nn : ℕ) (d : Fin nn → Fin nn → Fl) : Option (Fin nn → Fin nn → Fl) :=
  if ∃ i, d i i = some 0 then none
  else some fun i j => if i = j then (d i i).map (fun x => 1 / x) else some 0

/-- `modify_eigen_decomposition` (lines 260-267):
`eigen_vectors @ diagonal_inverse @ eigen_vectors.T`. -/
def modify_eigen_decomposition (nn : ℕ) (sq : ℚ → ℚ) (ev : Fin nn → ℚ)
    (B : Fin nn → Fin nn → ℚ) : Option (Fin nn → Fin nn → Fl) :=
  (invDiag nn (diagSqrt nn sq ev)).map fun Dinv =>
    fmatmul nn (fmatmul nn (fun i j => some (B i j)) Dinv) fun i j => some (B j i)

/-- `cumulation_for_ss` (lines 132-136):
`(1-c_sigma) * path_ss + sqrt(1-(1-c_sigma)^2) * sqrt(mu_w) *
 cm_eigen_dec @ parent`. -/
def cumulation_for_ss (nn : ℕ) (sq : ℚ → ℚ) (path_ss : Fin nn → ℚ)
    (c_sigma muw : ℚ) (ev : Fin nn → ℚ) (B : Fin nn → Fin nn → ℚ)
    (parent : Fin nn → ℚ) : Option (Fin nn → Fl) :=
  (modify_eigen_decomposition nn sq ev B).map fun M => fun i =>
    fadd (fmul (some (1 - c_sigma)) (some (path_ss i)))
      (fmul (fmul (fsqrt sq (some (1 - (1 - c_sigma) ^ 2))) (fsqrt sq (some muw)))
        (fmatvec nn M (fun j => some (parent j)) i))

/-- C7: on the symmetric, non-positive-definite covariance matrix
`diag(-1, 4)` (eigendecomposition: eigenvalues `(-1, 4)`, eigenvectors the
identity; float `sqrt 4 = 2`), the step-size-path update raises nothing —
it returns normally (`some …`) — and its result carries NaN in component 0:
`np.sqrt(-1)` is NaN and propagates through `inv` and the matrix products
into `path_ss`.  No `NumericalDegeneracyError` surfaces. -/
theorem C7_negative_eigenvalue_propagates_nan :
    (cumulation_for_ss 2 (fun q => if q = 4 then 2 else 1) ![0, 0] 2 1
        ![-1, 4] (fun i j => if i = j then 1 else 0) ![1, 1]).map
      (fun v => v 0) = some none := by
  have hinv : invDiag 2 (diagSqrt 2 (fun q => if q = 4 then 2 else 1) ![-1, 4])
      = some fun i j => if i = j then
          ((diagSqrt 2 (fun q => if q = 4 then 2 else 1) ![-1, 4] i i).map
            (fun x => 1 / x)) else some 0 := by
    unfold invDiag
    rw [if_neg]
    rintro ⟨i, hi⟩
    fin_cases i <;> simp [diagSqrt, fsqrt] at hi
  unfold cumulation_for_ss modify_eigen_decomposition
  rw [hinv]
  simp only [Option.map_some, Option.map]
  congr 1
  norm_num [fmatvec, fmatmul, fsum, fadd, fmul, fsqrt, diagSqrt, List.ofFn_succ,
    Fin.isValue, Option.bind]

end Becker
